import Mathlib

set_option autoImplicit false

namespace MinimalExecutor

/-- Result of polling a pool once, mirroring the Rust type Poll<Option<Ret>> used by
LocalPool::poll_once and LocalPool::poll_though in src/local_pool_busy.rs:
`pending` is Poll::Pending (suspended), `readyNone` is Poll::Ready(None) (the empty marker),
and `readySome r` is Poll::Ready(Some(r)) (completed with result r). -/
inductive PollO (Ret : Type) where
  | pending
  | readyNone
  | readySome (r : Ret)
  deriving DecidableEq, Repr

/-- Mirror of the Rust type Poll<Ret> returned by the bounded-queue pool's try_run_one. -/
inductive PollR (Ret : Type) where
  | pending
  | ready (r : Ret)
  deriving DecidableEq, Repr

/-- A task is anything repeatedly pollable.  One poll of a task state `t : τ` either
returns `Sum.inl t1` (Rust Poll::Pending, with `t1` the task's advanced state) or
`Sum.inr r` (Rust Poll::Ready(r)).  The pool operations below are generic over the
poll function, exactly as the Rust pools are generic over the stored futures. -/
def PollFn (τ Ret : Type) : Type := τ → τ ⊕ Ret

/-- Concrete task used to instantiate theorems on explicit inputs: `susp n r` returns
Pending on its next `n` polls and then completes with `r`; `never` always returns
Pending (like the `pending()` future in the repository's tests). -/
inductive TaskF (Ret : Type) where
  | susp (n : Nat) (r : Ret)
  | never
  deriving DecidableEq, Repr

/-- One poll of a `TaskF`. -/
def pollF {Ret : Type} : PollFn (TaskF Ret) Ret
  | .never => .inl .never
  | .susp 0 r => .inr r
  | .susp (n + 1) r => .inl (.susp n r)

/-- Characterisation used to state the sweep claims: the result of the first task in the
list whose poll reports completion, or `none` when every task reports still-suspended. -/
def firstReadySpec {τ Ret : Type} (poll : PollFn τ Ret) : List τ → Option Ret
  | [] => none
  | t :: rest =>
    match poll t with
    | .inr r => some r
    | .inl _ => firstReadySpec poll rest

namespace Busy

/-- The bounded-queue pool of src/local_pool_busy.rs: an ArrayQueue with fixed capacity
`cap`, modelled (single-threaded use) as a FIFO list with its front at the head. -/
structure LocalPool (τ : Type) where
  cap : Nat
  queue : List τ
  deriving DecidableEq, Repr

/-- ArrayQueue::push: appends at the tail, or fails (`none`) when the queue holds
`cap` elements. -/
def push {τ : Type} (p : LocalPool τ) (t : τ) : Option (LocalPool τ) :=
  if p.queue.length < p.cap then some { p with queue := p.queue ++ [t] } else none

/-- LocalPool::spawn: pushes directly onto the ring buffer; `none` models the fatal
"Queue full" panic raised by `.expect("Queue full")` on overflow. -/
def spawn {τ : Type} (p : LocalPool τ) (t : τ) : Option (LocalPool τ) :=
  push p t

/-- Iterated LocalPool::spawn, used to state the capacity claims: spawns the tasks in
order, propagating the fatal overflow (`none`) of any individual spawn. -/
def spawnAll {τ : Type} (p : LocalPool τ) : List τ → Option (LocalPool τ)
  | [] => some p
  | t :: ts =>
    match spawn p t with
    | some p1 => spawnAll p1 ts
    | none => none

/-- Outcome of Spawner::spawn: `ok` with the new shared-queue state (Rust Ok(())),
`shutdown` (Rust Err(SpawnError::shutdown())) when the weak reference fails to
upgrade, or `queueFull` for the fatal "Queue full" panic. -/
inductive SpawnOutcome (τ : Type) where
  | ok (p : LocalPool τ)
  | shutdown
  | queueFull
  deriving DecidableEq, Repr

/-- The Spawner handle: its `tx` field models the Weak reference to the shared
ArrayQueue — `some p` when the pool is still alive with state `p`, `none` when the
pool has been dropped (upgrade fails). -/
structure Spawner (τ : Type) where
  tx : Option (LocalPool τ)

/-- Spawner::spawn: `self.tx.upgrade().ok_or(SpawnError::shutdown())?` then
`tx.push(...).expect("Queue full")`. -/
def Spawner.spawn {τ : Type} (s : Spawner τ) (t : τ) : SpawnOutcome τ :=
  match s.tx with
  | none => .shutdown
  | some p =>
    match push p t with
    | some p1 => .ok p1
    | none => .queueFull

/-- LocalPool::poll_once: pop one task from the front; if the queue is empty return
Ready(None); otherwise poll the popped task once — on Pending push it back onto the
tail and return Pending, on Ready(r) return Ready(Some(r)) without re-queueing. -/
def poll_once {τ Ret : Type} (poll : PollFn τ Ret) (p : LocalPool τ) :
    LocalPool τ × PollO Ret :=
  match p.queue with
  | [] => (p, .readyNone)
  | t :: rest =>
    match poll t with
    | .inl t1 => ({ p with queue := rest ++ [t1] }, .pending)
    | .inr r => ({ p with queue := rest }, .readySome r)

/-- The `for _ in 0..len` loop inside LocalPool::poll_though: runs at most `n`
iterations, each popping the front task and polling it once — Pending pushes the task
back onto the tail, Ready(r) stops the loop.  Returns the final queue, the completion
found (if any), and the number of task polls performed. -/
def sweep {τ Ret : Type} (poll : PollFn τ Ret) : Nat → List τ → List τ × Option Ret × Nat
  | 0, q => (q, none, 0)
  | _ + 1, [] => ([], none, 0)
  | n + 1, t :: rest =>
    match poll t with
    | .inl t1 =>
      let s := sweep poll n (rest ++ [t1])
      (s.1, s.2.1, s.2.2 + 1)
    | .inr r => (rest, some r, 1)

/-- LocalPool::poll_though: if the queue length observed at call start is zero return
Ready(None); otherwise sweep at most that many tasks, returning Ready(Some(r)) for the
first completion found or Pending when none is. -/
def poll_though {τ Ret : Type} (poll : PollFn τ Ret) (p : LocalPool τ) :
    LocalPool τ × PollO Ret :=
  if p.queue.length = 0 then (p, .readyNone)
  else
    match sweep poll p.queue.length p.queue with
    | (q, some r, _) => ({ p with queue := q }, .readySome r)
    | (q, none, _) => ({ p with queue := q }, .pending)

/-- LocalPool::try_run_one of the bounded-queue pool: one poll_though sweep, mapping
Ready(Some(r)) to Ready(r) and both Ready(None) and Pending to Pending. -/
def try_run_one {τ Ret : Type} (poll : PollFn τ Ret) (p : LocalPool τ) :
    LocalPool τ × PollR Ret :=
  match poll_though poll p with
  | (p1, .readySome r) => (p1, .ready r)
  | (p1, .readyNone) => (p1, .pending)
  | (p1, .pending) => (p1, .pending)

/-- LocalPool::run: loops poll_once until Ready(None), collecting every produced
result in completion order.  The loop is given explicit fuel (`none` means the fuel
ran out before the loop broke); the final `Nat` counts how many times a task was
actually popped and polled. -/
def run {τ Ret : Type} (poll : PollFn τ Ret) :
    Nat → LocalPool τ → Option (LocalPool τ × List Ret × Nat)
  | 0, _ => none
  | fuel + 1, p =>
    match poll_once poll p with
    | (p1, .readyNone) => some (p1, [], 0)
    | (p1, .pending) =>
      match run poll fuel p1 with
      | some (p2, rs, k) => some (p2, rs, k + 1)
      | none => none
    | (p1, .readySome r) =>
      match run poll fuel p1 with
      | some (p2, rs, k) => some (p2, r :: rs, k + 1)
      | none => none

end Busy

namespace Fu

/-- FuturesUnordered::poll_next as driven by the no-op waker in src/local_pool.rs:
polls the stored futures in order, each at most once per call; the first completion is
removed and returned as Ready(Some(r)); an empty set returns Ready(None); otherwise
every future reported Pending and the call returns Pending. -/
def poll_next {τ Ret : Type} (poll : PollFn τ Ret) : List τ → List τ × PollO Ret
  | [] => ([], .readyNone)
  | t :: rest =>
    match poll t with
    | .inr r => (rest, .readySome r)
    | .inl t1 =>
      match poll_next poll rest with
      | (rest1, .readySome r) => (t1 :: rest1, .readySome r)
      | (rest1, _) => (t1 :: rest1, .pending)

/-- LocalPool::poll_once of the FuturesUnordered variant: `let _ = poll_next(...)` —
the pool is advanced but the outcome is discarded and the function returns unit. -/
def poll_once {τ Ret : Type} (poll : PollFn τ Ret) (q : List τ) : List τ × Unit :=
  ((poll_next poll q).1, ())

/-- LocalPool::try_run_one of the FuturesUnordered variant: one poll_next, mapping
Ready(Some(_)) to true and both Ready(None) and Pending to false. -/
def try_run_one {τ Ret : Type} (poll : PollFn τ Ret) (q : List τ) : List τ × Bool :=
  match poll_next poll q with
  | (q1, .readySome _) => (q1, true)
  | (q1, .readyNone) => (q1, false)
  | (q1, .pending) => (q1, false)

/-- LocalPool::poll_pool: loops poll_next, returning Pending as soon as a call reports
Pending and Ready when a call reports Ready(None); completions keep the loop going.
Fueled (`none` means fuel ran out); the final `Nat` counts completions observed. -/
def poll_pool {τ Ret : Type} (poll : PollFn τ Ret) :
    Nat → List τ → Option (List τ × PollR Unit × Nat)
  | 0, _ => none
  | fuel + 1, q =>
    match poll_next poll q with
    | (q1, .pending) => some (q1, .pending, 0)
    | (q1, .readyNone) => some (q1, .ready (), 0)
    | (q1, .readySome _) =>
      match poll_pool poll fuel q1 with
      | some (q2, o, k) => some (q2, o, k + 1)
      | none => none

/-- LocalPool::run of the FuturesUnordered variant: run_executor loops poll_pool until
it reports Ready.  Fueled; returns the final pool and the total number of completions
driven (the Rust function returns unit, so the completion count is the only
observable effect). -/
def run {τ Ret : Type} (poll : PollFn τ Ret) : Nat → List τ → Option (List τ × Nat)
  | 0, _ => none
  | fuel + 1, q =>
    match poll_pool poll (fuel + 1) q with
    | some (q1, .ready _, k) => some (q1, k)
    | some (q1, .pending, k) =>
      match run poll fuel q1 with
      | some (q2, k2) => some (q2, k + k2)
      | none => none
    | none => none

end Fu

namespace Waker

/-- SingleWake from src/waker.rs: a single boolean flag (AtomicBool, created false via
Default). -/
structure SingleWake where
  woken : Bool
  deriving DecidableEq, Repr

/-- SingleWake::new: the flag starts false (AtomicBool's Default). -/
def SingleWake.new : SingleWake := ⟨false⟩

/-- SingleWake::read_reset: `fetch_and(false)` returns the previous flag value and
leaves the flag false. -/
def SingleWake.read_reset (s : SingleWake) : Bool × SingleWake :=
  (s.woken, ⟨false⟩)

/-- SimpleWaker::wake for SingleWake: `store(true)`. -/
def SingleWake.wake (_s : SingleWake) : SingleWake := ⟨true⟩

/-- AlwaysWake from src/waker.rs: a unit struct with no state. -/
structure AlwaysWake where
  deriving DecidableEq, Repr

/-- SimpleWaker::wake for AlwaysWake: the body is empty, so the (empty) state is
unchanged and there is no observable effect. -/
def AlwaysWake.wake (a : AlwaysWake) : AlwaysWake := a

/-- A RawWaker built by waker_vtable: behaviourally it is just the data address it
decorates (the vtable is determined by the decorated type). -/
structure RawWaker (α : Type) where
  data : α
  deriving DecidableEq, Repr

/-- copy_ref_raw: cloning a raw waker builds a new RawWaker over the same data address
with the same vtable. -/
def copy_ref_raw {α : Type} (d : α) : RawWaker α := ⟨d⟩

end Waker

theorem firstReadySpec_of_all_pending {τ Ret : Type} (poll : PollFn τ Ret) :
    ∀ q : List τ, (∀ t ∈ q, ∃ t1, poll t = Sum.inl t1) → firstReadySpec poll q = none := by
  intro q
  induction q with
  | nil => intro _; rfl
  | cons t rest ih =>
    intro h
    obtain ⟨t1, ht⟩ := h t (List.mem_cons_self t rest)
    simp only [firstReadySpec, ht]
    exact ih fun u hu => h u (List.mem_cons_of_mem t hu)

theorem sweep_pending_eq {τ Ret : Type} (poll : PollFn τ Ret) (n : Nat) (t t1 : τ)
    (rest : List τ) (h : poll t = Sum.inl t1) :
    Busy.sweep poll (n + 1) (t :: rest) =
      ((Busy.sweep poll n (rest ++ [t1])).1, (Busy.sweep poll n (rest ++ [t1])).2.1,
        (Busy.sweep poll n (rest ++ [t1])).2.2 + 1) := by
  simp [Busy.sweep, h]

theorem sweep_ready_eq {τ Ret : Type} (poll : PollFn τ Ret) (n : Nat) (t : τ) (r : Ret)
    (rest : List τ) (h : poll t = Sum.inr r) :
    Busy.sweep poll (n + 1) (t :: rest) = (rest, some r, 1) := by
  simp [Busy.sweep, h]

theorem sweep_spec {τ Ret : Type} (poll : PollFn τ Ret) :
    ∀ (n : Nat) (q : List τ), n ≤ q.length →
      (Busy.sweep poll n q).2.1 = firstReadySpec poll (q.take n) ∧
      (Busy.sweep poll n q).2.2 ≤ n ∧
      ((Busy.sweep poll n q).2.1 = none → (Busy.sweep poll n q).1.length = q.length) ∧
      (∀ r, (Busy.sweep poll n q).2.1 = some r →
        (Busy.sweep poll n q).1.length + 1 = q.length) := by
  intro n
  induction n with
  | zero =>
    intro q _
    exact ⟨rfl, Nat.le_refl 0, fun _ => rfl, fun r hr => by simp [Busy.sweep] at hr⟩
  | succ n ih =>
    intro q hq
    match q with
    | [] => simp at hq
    | t :: rest =>
      have hlen : n ≤ rest.length := by simp at hq; omega
      rcases hp : poll t with t1 | r
      · have hlen2 : n ≤ (rest ++ [t1]).length := by simp; omega
        obtain ⟨h1, h2, h3, h4⟩ := ih (rest ++ [t1]) hlen2
        have htake : (rest ++ [t1]).take n = rest.take n :=
          List.take_append_of_le_length hlen
        rw [sweep_pending_eq poll n t t1 rest hp]
        refine ⟨?_, ?_, ?_, ?_⟩
        · simp only [List.take_succ_cons, firstReadySpec, hp]
          rw [h1, htake]
        · exact Nat.succ_le_succ h2
        · intro hnone
          have := h3 hnone
          simp only [List.length_append, List.length_cons, List.length_nil] at this ⊢
          omega
        · intro r hr
          have := h4 r hr
          simp only [List.length_append, List.length_cons, List.length_nil] at this ⊢
          omega
      · rw [sweep_ready_eq poll n t r rest hp]
        refine ⟨?_, ?_, ?_, ?_⟩
        · simp only [List.take_succ_cons, firstReadySpec, hp]
        · exact Nat.succ_le_succ (Nat.zero_le n)
        · intro hnone
          exact absurd hnone (by simp)
        · intro r1 hr
          simp

/-- C1: for the bounded-queue pool, poll_once on an empty queue returns the empty
marker Ready(None); otherwise it pops exactly the front task and polls it once — a
still-suspended poll pushes the task back onto the tail and poll_once returns Pending,
while a completed poll returns Ready(Some(result)) and the task is not re-queued. -/
theorem C1_poll_once_behaviour {τ Ret : Type} (poll : PollFn τ Ret) (p : Busy.LocalPool τ) :
    (p.queue = [] → Busy.poll_once poll p = (p, PollO.readyNone)) ∧
    (∀ t rest t1, p.queue = t :: rest → poll t = Sum.inl t1 →
      Busy.poll_once poll p = ({ p with queue := rest ++ [t1] }, PollO.pending)) ∧
    (∀ t rest r, p.queue = t :: rest → poll t = Sum.inr r →
      Busy.poll_once poll p = ({ p with queue := rest }, PollO.readySome r)) := by
  refine ⟨?_, ?_, ?_⟩
  · intro h
    simp [Busy.poll_once, h]
  · intro t rest t1 hq hp
    simp [Busy.poll_once, hq, hp]
  · intro t rest r hq hp
    simp [Busy.poll_once, hq, hp]

theorem C1_poll_once_behaviour_witness :
    Busy.poll_once pollF { cap := 4, queue := [TaskF.susp 0 5] } =
      ({ cap := 4, queue := [] }, PollO.readySome 5) ∧
    Busy.poll_once pollF { cap := 4, queue := [TaskF.never, TaskF.susp 0 5] } =
      ({ cap := 4, queue := [TaskF.susp 0 5, TaskF.never] }, PollO.pending) ∧
    Busy.poll_once pollF ({ cap := 4, queue := [] } : Busy.LocalPool (TaskF Nat)) =
      ({ cap := 4, queue := [] }, PollO.readyNone) := by
  refine ⟨?_, ?_, ?_⟩
  · exact (C1_poll_once_behaviour pollF _).2.2 (TaskF.susp 0 5) [] 5 rfl rfl
  · exact (C1_poll_once_behaviour pollF _).2.1 TaskF.never [TaskF.susp 0 5] TaskF.never rfl rfl
  · exact (C1_poll_once_behaviour pollF _).1 rfl

theorem poll_though_spec {τ Ret : Type} (poll : PollFn τ Ret) (p : Busy.LocalPool τ) :
    ((Busy.poll_though poll p).2 = PollO.readyNone ↔ p.queue = []) ∧
    (∀ r, (Busy.poll_though poll p).2 = PollO.readySome r ↔
      firstReadySpec poll p.queue = some r) ∧
    ((Busy.poll_though poll p).2 = PollO.pending ↔
      p.queue ≠ [] ∧ firstReadySpec poll p.queue = none) ∧
    ((Busy.poll_though poll p).2 = PollO.pending →
      (Busy.poll_though poll p).1.queue.length = p.queue.length) ∧
    (∀ r, (Busy.poll_though poll p).2 = PollO.readySome r →
      (Busy.poll_though poll p).1.queue.length + 1 = p.queue.length) ∧
    ((Busy.poll_though poll p).2 = PollO.readyNone → (Busy.poll_though poll p).1 = p) ∧
    (Busy.poll_though poll p).1.cap = p.cap := by
  obtain ⟨h1, _, h3, h4⟩ := sweep_spec poll p.queue.length p.queue (Nat.le_refl _)
  rw [List.take_length] at h1
  cases hq : p.queue with
  | nil =>
    simp [Busy.poll_though, hq, Busy.sweep, firstReadySpec]
  | cons t rest =>
    rw [hq] at h1 h3 h4
    rcases hs : Busy.sweep poll (t :: rest).length (t :: rest) with ⟨q1, res, k⟩
    rw [hs] at h1 h3 h4
    simp only at h1 h3 h4
    have hlen0 : ¬ ((t :: rest).length = 0) := by simp
    rcases res with _ | r
    · have hpt : Busy.poll_though poll p = ({ p with queue := q1 }, PollO.pending) := by
        simp only [Busy.poll_though, hq]
        rw [if_neg hlen0, hs]
      rw [hpt]
      refine ⟨by simp, ?_, ?_, ?_, ?_, ?_, ?_⟩
      · intro r
        simp [← h1]
      · simp [← h1]
      · intro _
        exact h3 rfl
      · intro r hr
        simp at hr
      · intro hr
        simp at hr
      · simp
    · have hpt : Busy.poll_though poll p = ({ p with queue := q1 }, PollO.readySome r) := by
        simp only [Busy.poll_though, hq]
        rw [if_neg hlen0, hs]
      rw [hpt]
      refine ⟨by simp, ?_, ?_, ?_, ?_, ?_, ?_⟩
      · intro r1
        simp [← h1]
      · simp [← h1]
      · intro hr
        simp at hr
      · intro r1 hr1
        have hr2 : r = r1 := by simpa using hr1
        subst hr2
        exact h4 r rfl
      · intro hr
        simp at hr
      · simp

/-- C2: one poll_though call on the bounded-queue pool polls at most L tasks, where L
is the queue length observed at call start; it reports the empty marker exactly when
the queue started empty, reports Ready(Some r) exactly when r is the first completion
found during the sweep, and reports Pending exactly when the queue was nonempty and
every swept task stayed suspended. -/
theorem C2_poll_though_sweep {τ Ret : Type} (poll : PollFn τ Ret) (p : Busy.LocalPool τ) :
    ((Busy.poll_though poll p).2 = PollO.readyNone ↔ p.queue = []) ∧
    (Busy.sweep poll p.queue.length p.queue).2.2 ≤ p.queue.length ∧
    (∀ r, (Busy.poll_though poll p).2 = PollO.readySome r ↔
      firstReadySpec poll p.queue = some r) ∧
    ((Busy.poll_though poll p).2 = PollO.pending ↔
      p.queue ≠ [] ∧ firstReadySpec poll p.queue = none) := by
  obtain ⟨hA, hB, hC, _, _, _, _⟩ := poll_though_spec poll p
  obtain ⟨_, h2, _, _⟩ := sweep_spec poll p.queue.length p.queue (Nat.le_refl _)
  exact ⟨hA, h2, hB, hC⟩

theorem C2_poll_though_sweep_witness :
    (Busy.poll_though pollF { cap := 3, queue := [TaskF.never, TaskF.susp 0 7] }).2 =
      PollO.readySome 7 ∧
    (Busy.poll_though pollF
        ({ cap := 3, queue := [TaskF.never, TaskF.never] } : Busy.LocalPool (TaskF Nat))).2 =
      PollO.pending ∧
    (Busy.poll_though pollF ({ cap := 3, queue := [] } : Busy.LocalPool (TaskF Nat))).2 =
      PollO.readyNone := by
  refine ⟨?_, ?_, ?_⟩
  · exact ((C2_poll_though_sweep pollF _).2.2.1 7).mpr (by decide)
  · exact ((C2_poll_though_sweep pollF _).2.2.2).mpr (by decide)
  · exact ((C2_poll_though_sweep pollF _).1).mpr rfl

theorem poll_next_spec {τ Ret : Type} (poll : PollFn τ Ret) :
    ∀ q : List τ,
      ((Fu.poll_next poll q).2 = PollO.readyNone ↔ q = []) ∧
      (∀ r, (Fu.poll_next poll q).2 = PollO.readySome r ↔
        firstReadySpec poll q = some r) ∧
      ((Fu.poll_next poll q).2 = PollO.pending ↔
        q ≠ [] ∧ firstReadySpec poll q = none) ∧
      (∀ r, (Fu.poll_next poll q).2 = PollO.readySome r →
        (Fu.poll_next poll q).1.length + 1 = q.length) ∧
      ((Fu.poll_next poll q).2 = PollO.pending → (Fu.poll_next poll q).1.length = q.length) ∧
      ((Fu.poll_next poll q).2 = PollO.readyNone → (Fu.poll_next poll q).1.length = q.length) := by
  intro q
  induction q with
  | nil => simp [Fu.poll_next, firstReadySpec]
  | cons t rest ih =>
    obtain ⟨hA, hB, hC, hD, hE, hF⟩ := ih
    rcases hp : poll t with t1 | r
    · rcases hrec : Fu.poll_next poll rest with ⟨rest1, o⟩
      rw [hrec] at hA hB hC hD hE hF
      simp only at hA hB hC hD hE hF
      cases o with
      | readyNone =>
        have hrest : rest = [] := hA.mp rfl
        have hlen : rest1.length = rest.length := hF rfl
        have heq : Fu.poll_next poll (t :: rest) = (t1 :: rest1, PollO.pending) := by
          simp [Fu.poll_next, hp, hrec]
        rw [heq]
        subst hrest
        have hrest1 : rest1 = [] := List.length_eq_zero.mp hlen
        subst hrest1
        simp [firstReadySpec, hp]
      | pending =>
        have hfr : rest ≠ [] ∧ firstReadySpec poll rest = none := hC.mp rfl
        have hlen : rest1.length = rest.length := hE rfl
        have heq : Fu.poll_next poll (t :: rest) = (t1 :: rest1, PollO.pending) := by
          simp [Fu.poll_next, hp, hrec]
        rw [heq]
        simp [firstReadySpec, hp, hfr.2, hlen]
      | readySome r =>
        have hfr : firstReadySpec poll rest = some r := (hB r).mp rfl
        have hlen : rest1.length + 1 = rest.length := hD r rfl
        have heq : Fu.poll_next poll (t :: rest) = (t1 :: rest1, PollO.readySome r) := by
          simp [Fu.poll_next, hp, hrec]
        rw [heq]
        refine ⟨by simp, ?_, by simp [firstReadySpec, hp, hfr], ?_, by simp, by simp⟩
        · intro r1
          simp [firstReadySpec, hp, hfr]
        · intro r1 _
          simp only [List.length_cons]
          omega
    · have heq : Fu.poll_next poll (t :: rest) = (rest, PollO.readySome r) := by
        simp [Fu.poll_next, hp]
      rw [heq]
      refine ⟨by simp, ?_, by simp [firstReadySpec, hp], ?_, by simp, by simp⟩
      · intro r1
        simp [firstReadySpec, hp]
      · intro r1 _
        simp

theorem try_run_one_spec {τ Ret : Type} (poll : PollFn τ Ret) (p : Busy.LocalPool τ) :
    (∀ r, (Busy.try_run_one poll p).2 = PollR.ready r ↔
      firstReadySpec poll p.queue = some r) ∧
    ((Busy.try_run_one poll p).2 = PollR.pending ↔ firstReadySpec poll p.queue = none) ∧
    (p.queue = [] → Busy.try_run_one poll p = (p, PollR.pending)) ∧
    p.queue.length ≤ (Busy.try_run_one poll p).1.queue.length + 1 := by
  obtain ⟨hA, hB, hC, hD, hE, hF, _⟩ := poll_though_spec poll p
  rcases hpt : Busy.poll_though poll p with ⟨p1, o⟩
  rw [hpt] at hA hB hC hD hE hF
  simp only at hA hB hC hD hE hF
  cases o with
  | readySome r0 =>
    have hf : firstReadySpec poll p.queue = some r0 := (hB r0).mp rfl
    have htr : Busy.try_run_one poll p = (p1, PollR.ready r0) := by
      simp [Busy.try_run_one, hpt]
    rw [htr]
    refine ⟨?_, by simp [hf], ?_, ?_⟩
    · intro r
      rw [hf]
      simp
    · intro hqe
      rw [hqe] at hf
      exact absurd hf (by simp [firstReadySpec])
    · have h5 := hE r0 rfl
      show p.queue.length ≤ p1.queue.length + 1
      omega
  | pending =>
    have hfp : p.queue ≠ [] ∧ firstReadySpec poll p.queue = none := hC.mp rfl
    have htr : Busy.try_run_one poll p = (p1, PollR.pending) := by
      simp [Busy.try_run_one, hpt]
    rw [htr]
    refine ⟨?_, by simp [hfp.2], ?_, ?_⟩
    · intro r
      simp [hfp.2]
    · intro hqe
      exact absurd hqe hfp.1
    · have h5 := hD rfl
      show p.queue.length ≤ p1.queue.length + 1
      omega
  | readyNone =>
    have hqe : p.queue = [] := hA.mp rfl
    have hp1 : p1 = p := hF rfl
    have htr : Busy.try_run_one poll p = (p1, PollR.pending) := by
      simp [Busy.try_run_one, hpt]
    rw [htr]
    refine ⟨?_, by simp [hqe, firstReadySpec], ?_, by simp [hqe]⟩
    · intro r
      simp [hqe, firstReadySpec]
    · intro _
      rw [hp1]

theorem fu_try_run_one_spec {τ Ret : Type} (poll : PollFn τ Ret) (q : List τ) :
    ((Fu.try_run_one poll q).2 = true ↔ ∃ r, firstReadySpec poll q = some r) ∧
    ((Fu.try_run_one poll q).2 = false ↔ firstReadySpec poll q = none) ∧
    (q = [] → Fu.try_run_one poll q = ([], false)) ∧
    q.length ≤ (Fu.try_run_one poll q).1.length + 1 := by
  obtain ⟨hA, hB, hC, hD, hE, hF⟩ := poll_next_spec poll q
  rcases hpn : Fu.poll_next poll q with ⟨q1, o⟩
  rw [hpn] at hA hB hC hD hE hF
  simp only at hA hB hC hD hE hF
  cases o with
  | readySome r0 =>
    have hf : firstReadySpec poll q = some r0 := (hB r0).mp rfl
    have htr : Fu.try_run_one poll q = (q1, true) := by
      simp [Fu.try_run_one, hpn]
    rw [htr]
    refine ⟨by simp [hf], by simp [hf], ?_, ?_⟩
    · intro hqe
      rw [hqe] at hf
      exact absurd hf (by simp [firstReadySpec])
    · have h5 := hD r0 rfl
      show q.length ≤ q1.length + 1
      omega
  | pending =>
    have hfp : q ≠ [] ∧ firstReadySpec poll q = none := hC.mp rfl
    have htr : Fu.try_run_one poll q = (q1, false) := by
      simp [Fu.try_run_one, hpn]
    rw [htr]
    refine ⟨by simp [hfp.2], by simp [hfp.2], ?_, ?_⟩
    · intro hqe
      exact absurd hqe hfp.1
    · have h5 := hE rfl
      show q.length ≤ q1.length + 1
      omega
  | readyNone =>
    have hqe : q = [] := hA.mp rfl
    have hl : q1.length = q.length := hF rfl
    have htr : Fu.try_run_one poll q = (q1, false) := by
      simp [Fu.try_run_one, hpn]
    rw [htr]
    have hq1 : q1 = [] := by
      rw [hqe] at hl
      exact List.length_eq_zero.mp hl
    subst hqe
    subst hq1
    simp [firstReadySpec]

/-- C6: for each pool variant, one try_run_one call surfaces at most one completion
(the queue shrinks by at most one task): it reports completed exactly when the
underlying sweep finds a finished task — the first one — and otherwise reports
not-ready; in particular try_run_one on an empty pool reports not-ready. -/
theorem C6_try_run_one {τ Ret : Type} (poll : PollFn τ Ret) (p : Busy.LocalPool τ)
    (q : List τ) :
    (∀ r, (Busy.try_run_one poll p).2 = PollR.ready r ↔
      firstReadySpec poll p.queue = some r) ∧
    ((Busy.try_run_one poll p).2 = PollR.pending ↔ firstReadySpec poll p.queue = none) ∧
    (p.queue = [] → Busy.try_run_one poll p = (p, PollR.pending)) ∧
    p.queue.length ≤ (Busy.try_run_one poll p).1.queue.length + 1 ∧
    ((Fu.try_run_one poll q).2 = true ↔ ∃ r, firstReadySpec poll q = some r) ∧
    ((Fu.try_run_one poll q).2 = false ↔ firstReadySpec poll q = none) ∧
    (q = [] → Fu.try_run_one poll q = ([], false)) ∧
    q.length ≤ (Fu.try_run_one poll q).1.length + 1 := by
  obtain ⟨b1, b2, b3, b4⟩ := try_run_one_spec poll p
  obtain ⟨f1, f2, f3, f4⟩ := fu_try_run_one_spec poll q
  exact ⟨b1, b2, b3, b4, f1, f2, f3, f4⟩

theorem C6_try_run_one_witness :
    (Busy.try_run_one pollF { cap := 4, queue := [TaskF.never, TaskF.susp 0 9] }).2 =
      PollR.ready 9 ∧
    Busy.try_run_one pollF ({ cap := 4, queue := [] } : Busy.LocalPool (TaskF Nat)) =
      ({ cap := 4, queue := [] }, PollR.pending) ∧
    (Fu.try_run_one pollF [TaskF.never, TaskF.susp 0 9]).2 = true ∧
    Fu.try_run_one pollF ([] : List (TaskF Nat)) = ([], false) := by
  refine ⟨?_, ?_, ?_, ?_⟩
  · exact ((C6_try_run_one pollF _ []).1 9).mpr (by decide)
  · exact (C6_try_run_one pollF _ ([] : List (TaskF Nat))).2.2.1 rfl
  · exact (C6_try_run_one pollF { cap := 1, queue := [] }
      [TaskF.never, TaskF.susp 0 9]).2.2.2.2.1.mpr ⟨9, by decide⟩
  · exact (C6_try_run_one pollF ({ cap := 1, queue := [] } : Busy.LocalPool (TaskF Nat))
      ([] : List (TaskF Nat))).2.2.2.2.2.2.1 rfl

/-- C8: on the bounded-queue pool the task count decreases only on completion — a
poll_once or poll_though call that finds every polled task still suspended leaves the
queue size unchanged (poll_once moreover just rotates the front task, advanced, to the
tail, so no task is lost or duplicated), the size drops by exactly one precisely when
a completion is returned, and the empty marker occurs only on an empty pool. -/
theorem C8_size_invariant {τ Ret : Type} (poll : PollFn τ Ret) (p : Busy.LocalPool τ) :
    ((Busy.poll_once poll p).2 = PollO.pending →
      (Busy.poll_once poll p).1.queue.length = p.queue.length ∧
      ∃ t t1 rest, p.queue = t :: rest ∧ poll t = Sum.inl t1 ∧
        (Busy.poll_once poll p).1.queue = rest ++ [t1]) ∧
    (∀ r, (Busy.poll_once poll p).2 = PollO.readySome r →
      (Busy.poll_once poll p).1.queue.length + 1 = p.queue.length) ∧
    ((Busy.poll_once poll p).2 = PollO.readyNone → p.queue = [] ∧
      (Busy.poll_once poll p).1 = p) ∧
    ((Busy.poll_though poll p).2 = PollO.pending →
      (Busy.poll_though poll p).1.queue.length = p.queue.length) ∧
    (∀ r, (Busy.poll_though poll p).2 = PollO.readySome r →
      (Busy.poll_though poll p).1.queue.length + 1 = p.queue.length) ∧
    ((Busy.poll_though poll p).2 = PollO.readyNone → p.queue = []) := by
  obtain ⟨tA, _, _, tD, tE, _, _⟩ := poll_though_spec poll p
  refine ⟨?_, ?_, ?_, tD, tE, tA.mp⟩
  · intro hpend
    cases hq : p.queue with
    | nil =>
      rw [show Busy.poll_once poll p = (p, PollO.readyNone) by simp [Busy.poll_once, hq]]
        at hpend
      simp at hpend
    | cons t rest =>
      rcases hp : poll t with t1 | r
      · have he : Busy.poll_once poll p = ({ p with queue := rest ++ [t1] }, PollO.pending) := by
          simp [Busy.poll_once, hq, hp]
        rw [he]
        exact ⟨by simp, t, t1, rest, rfl, hp, rfl⟩
      · rw [show Busy.poll_once poll p = ({ p with queue := rest }, PollO.readySome r) by
          simp [Busy.poll_once, hq, hp]] at hpend
        simp at hpend
  · intro r hready
    cases hq : p.queue with
    | nil =>
      rw [show Busy.poll_once poll p = (p, PollO.readyNone) by simp [Busy.poll_once, hq]]
        at hready
      simp at hready
    | cons t rest =>
      rcases hp : poll t with t1 | r1
      · rw [show Busy.poll_once poll p = ({ p with queue := rest ++ [t1] }, PollO.pending) by
          simp [Busy.poll_once, hq, hp]] at hready
        simp at hready
      · rw [show Busy.poll_once poll p = ({ p with queue := rest }, PollO.readySome r1) by
          simp [Busy.poll_once, hq, hp]]
        simp
  · intro hnone
    cases hq : p.queue with
    | nil =>
      exact ⟨rfl, by rw [show Busy.poll_once poll p = (p, PollO.readyNone) by
        simp [Busy.poll_once, hq]]⟩
    | cons t rest =>
      rcases hp : poll t with t1 | r1
      · rw [show Busy.poll_once poll p = ({ p with queue := rest ++ [t1] }, PollO.pending) by
          simp [Busy.poll_once, hq, hp]] at hnone
        simp at hnone
      · rw [show Busy.poll_once poll p = ({ p with queue := rest }, PollO.readySome r1) by
          simp [Busy.poll_once, hq, hp]] at hnone
        simp at hnone

theorem C8_size_invariant_witness :
    (Busy.poll_once pollF { cap := 4, queue := [TaskF.susp 1 3, TaskF.never] }).1.queue.length = 2 ∧
    (Busy.poll_once pollF { cap := 4, queue := [TaskF.susp 0 3, TaskF.never] }).1.queue.length + 1 = 2 := by
  constructor
  · exact ((C8_size_invariant pollF
      { cap := 4, queue := [TaskF.susp 1 3, TaskF.never] }).1 (by decide)).1
  · exact (C8_size_invariant pollF
      { cap := 4, queue := [TaskF.susp 0 3, TaskF.never] }).2.1 3 (by decide)

/-- C10: as implemented, try_run_one collapses the empty pool and the all-suspended
pool to the same observable not-ready outcome in both variants — Pending in the
bounded-queue variant and false in the FuturesUnordered variant — so a caller of
try_run_one alone cannot tell them apart. -/
theorem C10_not_ready_collapse {τ Ret : Type} (poll : PollFn τ Ret)
    (p : Busy.LocalPool τ) (q : List τ)
    (hp : ∀ t ∈ p.queue, ∃ t1, poll t = Sum.inl t1)
    (hq : ∀ t ∈ q, ∃ t1, poll t = Sum.inl t1) :
    (Busy.try_run_one poll p).2 = PollR.pending ∧
    (Busy.try_run_one poll ({ cap := p.cap, queue := [] } : Busy.LocalPool τ)).2 =
      PollR.pending ∧
    (Fu.try_run_one poll q).2 = false ∧
    (Fu.try_run_one poll ([] : List τ)).2 = false := by
  refine ⟨?_, ?_, ?_, ?_⟩
  · exact (try_run_one_spec poll p).2.1.mpr (firstReadySpec_of_all_pending poll p.queue hp)
  · exact (try_run_one_spec poll _).2.1.mpr rfl
  · exact (fu_try_run_one_spec poll q).2.1.mpr (firstReadySpec_of_all_pending poll q hq)
  · exact (fu_try_run_one_spec poll _).2.1.mpr rfl

theorem C10_not_ready_collapse_witness :
    (Busy.try_run_one pollF
      ({ cap := 3, queue := [TaskF.never, TaskF.never] } : Busy.LocalPool (TaskF Nat))).2 =
      PollR.pending ∧
    (Fu.try_run_one pollF [(TaskF.never : TaskF Nat)]).2 = false := by
  have h := C10_not_ready_collapse pollF
    ({ cap := 3, queue := [TaskF.never, TaskF.never] } : Busy.LocalPool (TaskF Nat))
    [(TaskF.never : TaskF Nat)]
    (by
      intro t ht
      refine ⟨TaskF.never, ?_⟩
      simp only [List.mem_cons, List.mem_singleton, List.not_mem_nil, or_false] at ht
      rcases ht with h1 | h1 <;> (subst h1; rfl))
    (by
      intro t ht
      refine ⟨TaskF.never, ?_⟩
      simp only [List.mem_singleton] at ht
      subst ht
      rfl)
  exact ⟨h.1, h.2.2.1⟩

theorem run_succ_ready {τ Ret : Type} (poll : PollFn τ Ret) (fuel : Nat)
    (p p1 : Busy.LocalPool τ) (r : Ret)
    (h : Busy.poll_once poll p = (p1, PollO.readySome r)) :
    Busy.run poll (fuel + 1) p =
      (match Busy.run poll fuel p1 with
        | some (p2, rs, k) => some (p2, r :: rs, k + 1)
        | none => none) := by
  simp [Busy.run, h]

theorem poll_pool_succ_ready {τ Ret : Type} (poll : PollFn τ Ret) (fuel : Nat)
    (q q1 : List τ) (r : Ret) (h : Fu.poll_next poll q = (q1, PollO.readySome r)) :
    Fu.poll_pool poll (fuel + 1) q =
      (match Fu.poll_pool poll fuel q1 with
        | some (q2, o, k) => some (q2, o, k + 1)
        | none => none) := by
  simp [Fu.poll_pool, h]

theorem run_all_ready {τ Ret : Type} (poll : PollFn τ Ret) (f : τ → Ret) :
    ∀ (q : List τ) (c : Nat), (∀ t ∈ q, poll t = Sum.inr (f t)) →
      Busy.run poll (q.length + 1) { cap := c, queue := q } =
        some ({ cap := c, queue := [] }, q.map f, q.length) := by
  intro q
  induction q with
  | nil =>
    intro c _
    simp [Busy.run, Busy.poll_once]
  | cons t rest ih =>
    intro c h
    have ht := h t (List.mem_cons_self t rest)
    have hrest := fun u hu => h u (List.mem_cons_of_mem t hu)
    have h1 : Busy.poll_once poll { cap := c, queue := t :: rest } =
        ({ cap := c, queue := rest }, PollO.readySome (f t)) := by
      simp [Busy.poll_once, ht]
    simp only [List.length_cons]
    rw [run_succ_ready poll (rest.length + 1) _ _ _ h1]
    rw [ih c hrest]
    simp

theorem fu_poll_pool_all_ready {τ Ret : Type} (poll : PollFn τ Ret) (f : τ → Ret) :
    ∀ q : List τ, (∀ t ∈ q, poll t = Sum.inr (f t)) →
      Fu.poll_pool poll (q.length + 1) q = some ([], PollR.ready (), q.length) := by
  intro q
  induction q with
  | nil =>
    intro _
    simp [Fu.poll_pool, Fu.poll_next]
  | cons t rest ih =>
    intro h
    have ht := h t (List.mem_cons_self t rest)
    have hrest := fun u hu => h u (List.mem_cons_of_mem t hu)
    have h1 : Fu.poll_next poll (t :: rest) = (rest, PollO.readySome (f t)) := by
      simp [Fu.poll_next, ht]
    simp only [List.length_cons]
    rw [poll_pool_succ_ready poll (rest.length + 1) _ _ _ h1]
    rw [ih hrest]

theorem fu_run_all_ready {τ Ret : Type} (poll : PollFn τ Ret) (f : τ → Ret)
    (q : List τ) (h : ∀ t ∈ q, poll t = Sum.inr (f t)) :
    Fu.run poll (q.length + 1) q = some ([], q.length) := by
  have hpp := fu_poll_pool_all_ready poll f q h
  simp only [Fu.run, hpp]

/-- C3: for every poll function under which each spawned task completes on its first
poll, run on N such tasks returns exactly N results — for the bounded-queue pool the
list of the N task results in queue order, produced with exactly N task polls (so no
task is polled after completing), ending on the empty marker with fuel N+1; for the
FuturesUnordered variant the poll_pool loop and run drive exactly N completions and
empty the pool. -/
theorem C3_run_all_ready {τ Ret : Type} (poll : PollFn τ Ret) (f : τ → Ret) (c : Nat)
    (q : List τ) (h : ∀ t ∈ q, poll t = Sum.inr (f t)) :
    Busy.run poll (q.length + 1) { cap := c, queue := q } =
      some ({ cap := c, queue := [] }, q.map f, q.length) ∧
    (q.map f).length = q.length ∧
    Fu.poll_pool poll (q.length + 1) q = some ([], PollR.ready (), q.length) ∧
    Fu.run poll (q.length + 1) q = some ([], q.length) :=
  ⟨run_all_ready poll f q c h, by simp, fu_poll_pool_all_ready poll f q h,
    fu_run_all_ready poll f q h⟩

theorem C3_run_all_ready_witness :
    Busy.run pollF 4 { cap := 8, queue := [TaskF.susp 0 1, TaskF.susp 0 2, TaskF.susp 0 3] } =
      some ({ cap := 8, queue := [] }, [1, 2, 3], 3) ∧
    Fu.run pollF 4 [TaskF.susp 0 1, TaskF.susp 0 2, TaskF.susp 0 3] = some ([], 3) := by
  have h := C3_run_all_ready pollF
    (fun t => match t with | TaskF.susp _ r => r | TaskF.never => 0) 8
    [TaskF.susp 0 1, TaskF.susp 0 2, TaskF.susp 0 3] (by decide)
  exact ⟨h.1, h.2.2.2⟩

theorem spawnAll_ok {τ : Type} (c : Nat) :
    ∀ (ts : List τ) (q : List τ), q.length + ts.length ≤ c →
      Busy.spawnAll { cap := c, queue := q } ts = some { cap := c, queue := q ++ ts } := by
  intro ts
  induction ts with
  | nil =>
    intro q _
    simp [Busy.spawnAll]
  | cons t ts ih =>
    intro q h
    have hlt : q.length < c := by simp at h; omega
    have hpush : Busy.spawn { cap := c, queue := q } t =
        some { cap := c, queue := q ++ [t] } := by
      simp [Busy.spawn, Busy.push, hlt]
    simp only [Busy.spawnAll, hpush]
    rw [ih (q ++ [t]) (by simp at h ⊢; omega)]
    simp

theorem spawnAll_overflow {τ : Type} (c : Nat) :
    ∀ (ts : List τ) (q : List τ), ts ≠ [] → c < q.length + ts.length →
      Busy.spawnAll { cap := c, queue := q } ts = none := by
  intro ts
  induction ts with
  | nil =>
    intro q hne _
    exact absurd rfl hne
  | cons t ts ih =>
    intro q _ hover
    by_cases hlt : q.length < c
    · have hpush : Busy.spawn { cap := c, queue := q } t =
          some { cap := c, queue := q ++ [t] } := by
        simp [Busy.spawn, Busy.push, hlt]
      simp only [Busy.spawnAll, hpush]
      rcases ts with _ | ⟨t2, ts2⟩
      · exact absurd hlt (by simp at hover; omega)
      · exact ih (q ++ [t]) (by simp) (by simp at hover ⊢; omega)
    · have hpush : Busy.spawn { cap := c, queue := q } t = none := by
        simp [Busy.spawn, Busy.push, hlt]
      simp [Busy.spawnAll, hpush]

/-- C4: spawning exactly C tasks into an empty bounded-queue pool of capacity C all
succeed; spawning a (C+1)-th task is the fatal, non-recoverable "Queue full" panic
(modelled as none), never a recoverable error; and for any pool holding at most its
capacity, spawn is fatal exactly when the queue already holds cap tasks. -/
theorem C4_spawn_capacity {τ : Type} (c : Nat) (ts : List τ) (p : Busy.LocalPool τ)
    (t : τ) :
    (ts.length ≤ c →
      Busy.spawnAll { cap := c, queue := [] } ts = some { cap := c, queue := ts }) ∧
    (ts.length = c + 1 → Busy.spawnAll { cap := c, queue := [] } ts = none) ∧
    (p.queue.length ≤ p.cap → (Busy.spawn p t = none ↔ p.queue.length = p.cap)) := by
  refine ⟨?_, ?_, ?_⟩
  · intro hle
    have := spawnAll_ok c ts [] (by simpa using hle)
    simpa using this
  · intro hlen
    refine spawnAll_overflow c ts [] ?_ (by simp [hlen])
    intro h0
    rw [h0] at hlen
    simp at hlen
  · intro hle
    constructor
    · intro hnone
      by_cases hlt : p.queue.length < p.cap
      · simp [Busy.spawn, Busy.push, hlt] at hnone
      · omega
    · intro heq
      simp [Busy.spawn, Busy.push, heq]

theorem C4_spawn_capacity_witness :
    Busy.spawnAll { cap := 2, queue := [] } [TaskF.susp 0 1, TaskF.susp 0 2] =
      some { cap := 2, queue := [TaskF.susp 0 1, TaskF.susp 0 2] } ∧
    Busy.spawnAll { cap := 2, queue := [] }
      [TaskF.susp 0 1, TaskF.susp 0 2, TaskF.susp 0 3] = none ∧
    Busy.spawn { cap := 2, queue := [TaskF.susp 0 1, TaskF.susp 0 2] } (TaskF.susp 0 3) =
      none := by
  refine ⟨?_, ?_, ?_⟩
  · exact (C4_spawn_capacity 2 [TaskF.susp 0 1, TaskF.susp 0 2]
      { cap := 2, queue := [] } (TaskF.susp 0 1)).1 (by decide)
  · exact (C4_spawn_capacity 2 [TaskF.susp 0 1, TaskF.susp 0 2, TaskF.susp 0 3]
      { cap := 2, queue := [] } (TaskF.susp 0 1)).2.1 rfl
  · exact ((C4_spawn_capacity 2 [] { cap := 2, queue := [TaskF.susp 0 1, TaskF.susp 0 2] }
      (TaskF.susp 0 3)).2.2 (by decide)).mpr rfl

/-- C5: a spawner whose pool has been dropped (its weak reference fails to upgrade)
always reports the shutdown error from spawn — it is never the fatal queue-full panic
and never a silent success, and no task is enqueued; if the pool is alive, the
spawner's spawn pushes into the shared queue and fails fatally on overflow exactly
like the owner's spawn. -/
theorem C5_spawner_spawn {τ : Type} (s : Busy.Spawner τ) (t : τ) :
    (s.tx = none → Busy.Spawner.spawn s t = Busy.SpawnOutcome.shutdown) ∧
    (s.tx = none → ∀ p1, Busy.Spawner.spawn s t ≠ Busy.SpawnOutcome.ok p1) ∧
    (s.tx = none → Busy.Spawner.spawn s t ≠ Busy.SpawnOutcome.queueFull) ∧
    (∀ p, s.tx = some p →
      Busy.Spawner.spawn s t =
        (match Busy.spawn p t with
          | some p1 => Busy.SpawnOutcome.ok p1
          | none => Busy.SpawnOutcome.queueFull)) := by
  refine ⟨?_, ?_, ?_, ?_⟩
  · intro h
    simp [Busy.Spawner.spawn, h]
  · intro h p1
    simp [Busy.Spawner.spawn, h]
  · intro h
    simp [Busy.Spawner.spawn, h]
  · intro p h
    simp only [Busy.Spawner.spawn, h]
    rfl

theorem C5_spawner_spawn_witness :
    Busy.Spawner.spawn { tx := (none : Option (Busy.LocalPool (TaskF Nat))) }
      (TaskF.susp 0 1) = Busy.SpawnOutcome.shutdown ∧
    Busy.Spawner.spawn { tx := some ({ cap := 2, queue := [] } : Busy.LocalPool (TaskF Nat)) }
      (TaskF.susp 0 1) = Busy.SpawnOutcome.ok { cap := 2, queue := [TaskF.susp 0 1] } ∧
    Busy.Spawner.spawn
      { tx := some ({ cap := 1, queue := [TaskF.never] } : Busy.LocalPool (TaskF Nat)) }
      (TaskF.susp 0 1) = Busy.SpawnOutcome.queueFull := by
  refine ⟨?_, ?_, ?_⟩
  · exact (C5_spawner_spawn { tx := (none : Option (Busy.LocalPool (TaskF Nat))) }
      (TaskF.susp 0 1)).1 rfl
  · have h := (C5_spawner_spawn
      { tx := some ({ cap := 2, queue := [] } : Busy.LocalPool (TaskF Nat)) }
      (TaskF.susp 0 1)).2.2.2 { cap := 2, queue := [] } rfl
    rw [h]
    rfl
  · have h := (C5_spawner_spawn
      { tx := some ({ cap := 1, queue := [TaskF.never] } : Busy.LocalPool (TaskF Nat)) }
      (TaskF.susp 0 1)).2.2.2 { cap := 1, queue := [TaskF.never] } rfl
    rw [h]
    rfl

/-- C7 counterexample: in the FuturesUnordered variant, poll_once discards the poll
outcome and returns unit, so the empty pool and an all-suspended pool — whose internal
poll_next outcomes differ (empty marker versus suspended) — give the caller the very
same return value, and no decoding of poll_once's return value can report empty on
the empty pool and suspended on the suspended one.  This refutes the claim that the
caller of poll_once can observe which of the three outcomes occurred in each variant. -/
theorem C7_counterexample :
    (Fu.poll_once pollF ([] : List (TaskF Unit))).2 =
      (Fu.poll_once pollF [(TaskF.never : TaskF Unit)]).2 ∧
    (Fu.poll_next pollF ([] : List (TaskF Unit))).2 ≠
      (Fu.poll_next pollF [(TaskF.never : TaskF Unit)]).2 ∧
    ¬ ∃ g : Unit → PollO Unit,
        g (Fu.poll_once pollF ([] : List (TaskF Unit))).2 = PollO.readyNone ∧
        g (Fu.poll_once pollF [(TaskF.never : TaskF Unit)]).2 = PollO.pending := by
  refine ⟨rfl, by decide, ?_⟩
  rintro ⟨g, hg1, hg2⟩
  rw [show (Fu.poll_once pollF ([] : List (TaskF Unit))).2 = () from rfl] at hg1
  rw [show (Fu.poll_once pollF [(TaskF.never : TaskF Unit)]).2 = () from rfl] at hg2
  rw [hg1] at hg2
  exact absurd hg2 (by decide)

/-- C7 amended: the bounded-queue pool's poll_once and poll_though each return one of
the three outcomes empty, suspended, or completed(result), and report the empty marker
exactly on an empty pool (never suspended there); the FuturesUnordered variant's
poll_once, however, returns unit, so only the bounded-queue variant's caller can
observe which outcome occurred. -/
theorem C7_amended_outcomes {τ Ret : Type} (poll : PollFn τ Ret) (p : Busy.LocalPool τ)
    (q : List τ) :
    ((Busy.poll_once poll p).2 = PollO.pending ∨
      (Busy.poll_once poll p).2 = PollO.readyNone ∨
      ∃ r, (Busy.poll_once poll p).2 = PollO.readySome r) ∧
    ((Busy.poll_though poll p).2 = PollO.pending ∨
      (Busy.poll_though poll p).2 = PollO.readyNone ∨
      ∃ r, (Busy.poll_though poll p).2 = PollO.readySome r) ∧
    (p.queue = [] → Busy.poll_once poll p = (p, PollO.readyNone) ∧
      Busy.poll_though poll p = (p, PollO.readyNone)) ∧
    ((Busy.poll_once poll p).2 = PollO.readyNone → p.queue = []) ∧
    ((Busy.poll_though poll p).2 = PollO.readyNone → p.queue = []) ∧
    (Fu.poll_once poll q).2 = () := by
  obtain ⟨tA, _, _, _, _, tF, _⟩ := poll_though_spec poll p
  refine ⟨?_, ?_, ?_, ?_, tA.mp, rfl⟩
  · rcases h : (Busy.poll_once poll p).2 with _ | _ | r
    · exact Or.inl rfl
    · exact Or.inr (Or.inl rfl)
    · exact Or.inr (Or.inr ⟨r, rfl⟩)
  · rcases h : (Busy.poll_though poll p).2 with _ | _ | r
    · exact Or.inl rfl
    · exact Or.inr (Or.inl rfl)
    · exact Or.inr (Or.inr ⟨r, rfl⟩)
  · intro hq
    have h1 : Busy.poll_once poll p = (p, PollO.readyNone) := by
      simp [Busy.poll_once, hq]
    have h2 : (Busy.poll_though poll p).2 = PollO.readyNone := by
      have : p.queue.length = 0 := by simp [hq]
      simp [Busy.poll_though, this]
    refine ⟨h1, ?_⟩
    have h3 := tF h2
    rcases hpt : Busy.poll_though poll p with ⟨p1, o⟩
    rw [hpt] at h2 h3
    simp only at h2 h3
    rw [h2, h3]
  · intro hnone
    cases hq : p.queue with
    | nil => rfl
    | cons t rest =>
      rcases hp : poll t with t1 | r
      · rw [show Busy.poll_once poll p = ({ p with queue := rest ++ [t1] }, PollO.pending) by
          simp [Busy.poll_once, hq, hp]] at hnone
        simp at hnone
      · rw [show Busy.poll_once poll p = ({ p with queue := rest }, PollO.readySome r) by
          simp [Busy.poll_once, hq, hp]] at hnone
        simp at hnone

theorem C7_amended_outcomes_witness :
    Busy.poll_once pollF ({ cap := 2, queue := [] } : Busy.LocalPool (TaskF Nat)) =
      ({ cap := 2, queue := [] }, PollO.readyNone) ∧
    Busy.poll_though pollF ({ cap := 2, queue := [] } : Busy.LocalPool (TaskF Nat)) =
      ({ cap := 2, queue := [] }, PollO.readyNone) := by
  have h := (C7_amended_outcomes pollF
    ({ cap := 2, queue := [] } : Busy.LocalPool (TaskF Nat))
    ([] : List (TaskF Nat))).2.2.1 rfl
  exact ⟨h.1, h.2⟩

/-- C9: the single-flag waker starts with the flag false; wake stores true; read_reset
returns the current flag value and clears it, so after a wake the next read_reset
returns true and an immediately following read_reset returns false; the always-no-op
waker's wake leaves its (empty) state unchanged; and cloning a raw notification handle
yields a handle to the same data address with the same vtable-determined behaviour. -/
theorem C9_waker_behaviour (s : Waker.SingleWake) (a : Waker.AlwaysWake) (α : Type)
    (d : α) :
    Waker.SingleWake.new.read_reset.1 = false ∧
    Waker.SingleWake.read_reset s = (s.woken, Waker.SingleWake.mk false) ∧
    (Waker.SingleWake.wake s).woken = true ∧
    (Waker.SingleWake.wake s).read_reset.1 = true ∧
    ((Waker.SingleWake.wake s).read_reset.2).read_reset.1 = false ∧
    Waker.AlwaysWake.wake a = a ∧
    Waker.copy_ref_raw d = Waker.RawWaker.mk d :=
  ⟨rfl, rfl, rfl, rfl, rfl, rfl, rfl⟩

end MinimalExecutor
